import Mathlib

/-!
Verification of the scanning core of the techie-ip-scanner repository.

The development shallowly embeds the two Deno serverless handlers
(`supabase/functions/network-scan/index.ts` and the port-scan handler that
shares the same file) into Lean:

* strings are `List Char`, split and trimmed by executable list functions
  mirroring JavaScript `String.prototype.split` / `trim`;
* JavaScript numbers are modelled by `JSem.JSNum`, either `nan` or an exact
  integer (every numeric value reached by this code is an integer or `NaN`;
  bitwise operators work on the 32-bit pattern of their operands exactly as
  the ECMAScript `ToInt32`/`ToUint32` coercions prescribe);
* the network environment (whether a `ping` invocation is possible, whether a
  TCP connection to a given port succeeds, which side of a `Promise.race`
  settles first) is passed explicitly as data;
* the handlers' batching `for` loops, which advance their index by a
  request-supplied `batchSize`, are given an explicit fuel so that their
  (non-)termination can be stated.
-/

namespace JSem

/-- A JavaScript number as it occurs in the scanner code: either `NaN` or an
exact integer.  (The scanner never produces a non-integer finite value on the
paths modelled here; numeric literals with fractional syntax are coerced to
`nan` by the string parsers below.) -/
inductive JSNum where
  | nan : JSNum
  | num (v : Int) : JSNum
deriving DecidableEq, Repr

/-- `ToUint32` bit pattern of a JS number as used by the bitwise operators;
`NaN` converts to 0. -/
def pat32 : JSNum → Nat
  | .nan => 0
  | .num v => (v % 4294967296).toNat

/-- Signed 32-bit value with the given bit pattern (`ToInt32` result). -/
def ofPat (n : Nat) : Int :=
  if n < 2147483648 then (n : Int) else (n : Int) - 4294967296

/-- JavaScript `a << k` (left shift on 32-bit patterns, count taken mod 32). -/
def shl32 (a k : JSNum) : Int :=
  ofPat ((pat32 a <<< (pat32 k % 32)) % 4294967296)

/-- JavaScript `a | b`. -/
def or32 (a b : JSNum) : Int :=
  ofPat (pat32 a ||| pat32 b)

/-- JavaScript `a & b`. -/
def and32 (a b : JSNum) : Int :=
  ofPat (pat32 a &&& pat32 b)

/-- JavaScript `~a` (bitwise complement on the 32-bit pattern). -/
def not32 (a : JSNum) : Int :=
  ofPat (4294967295 - pat32 a)

/-- JavaScript `a >>> k`: unsigned right shift, result is the non-negative
`ToUint32` value. -/
def ushr32 (a k : JSNum) : Int :=
  Int.ofNat (pat32 a >>> (pat32 k % 32))

/-- JavaScript `a + b` on numbers (integral case; `NaN` propagates). -/
def jsAdd : JSNum → JSNum → JSNum
  | .num a, .num b => .num (a + b)
  | _, _ => .nan

/-- JavaScript `a - b` on numbers (integral case; `NaN` propagates). -/
def jsSub : JSNum → JSNum → JSNum
  | .num a, .num b => .num (a - b)
  | _, _ => .nan

/-- JavaScript `a < b`; any comparison with `NaN` is false. -/
def jsLt : JSNum → JSNum → Bool
  | .num a, .num b => a < b
  | _, _ => false

/-- JavaScript `a > b`; any comparison with `NaN` is false. -/
def jsGt : JSNum → JSNum → Bool
  | .num a, .num b => b < a
  | _, _ => false

/-- `Math.pow(2, h)` for the host-bit counts reached by the scanner
(`h ∈ [0,8]`, or `NaN` which propagates).  A negative exponent would give a
non-integer value; it is unreachable under the CIDR guard and is mapped to
`nan`. -/
def jsPow2 : JSNum → JSNum
  | .nan => .nan
  | .num h => if 0 ≤ h then .num ((2 : Int) ^ h.toNat) else .nan

/-- The whitespace characters recognised by the `trim`/`parseInt` models. -/
def isWsCh (ch : Char) : Bool :=
  ch = ' ' || ch = '\t' || ch = '\n' || ch = '\r'

/-- JavaScript `s.split(sep)` for a one-character separator: the list of
(possibly empty) chunks between occurrences of `c`. -/
def splitOnCh (c : Char) : List Char → List (List Char)
  | [] => [[]]
  | x :: xs =>
    if x = c then
      [] :: splitOnCh c xs
    else
      match splitOnCh c xs with
      | [] => [[x]]
      | t :: ts => (x :: t) :: ts

/-- JavaScript `s.trim()` (restricted to the ASCII whitespace of `isWsCh`). -/
def trimChars (l : List Char) : List Char :=
  ((l.dropWhile isWsCh).reverse.dropWhile isWsCh).reverse

/-- Numeric value of a list of decimal digit characters. -/
def digitsVal (l : List Char) : Nat :=
  l.foldl (fun a ch => 10 * a + (ch.toNat - 48)) 0

/-- JavaScript `Number(s)` restricted to the shapes the scanner feeds it:
the empty/blank string is 0, an optionally signed run of decimal digits is its
value, and anything else is `NaN`.  (Fractional, exponent and radix-prefixed
literals are not produced by the scanner's inputs of interest and are mapped
to `nan`.) -/
def jsNumberOf (l : List Char) : JSNum :=
  let t := trimChars l
  if t = [] then .num 0
  else if t.headD ' ' = '-' then
    if t.tail ≠ [] ∧ t.tail.all Char.isDigit then .num (-(digitsVal t.tail : Int)) else .nan
  else if t.headD ' ' = '+' then
    if t.tail ≠ [] ∧ t.tail.all Char.isDigit then .num (digitsVal t.tail : Int) else .nan
  else if t.all Char.isDigit then .num (digitsVal t : Int)
  else .nan

/-- JavaScript `parseInt(s)`: skip leading whitespace, read an optional sign
and the longest prefix of decimal digits; `NaN` when that prefix is empty. -/
def jsParseInt (l : List Char) : JSNum :=
  let t := l.dropWhile isWsCh
  if t.headD ' ' = '-' then
    let ds := t.tail.takeWhile Char.isDigit
    if ds = [] then .nan else .num (-(digitsVal ds : Int))
  else if t.headD ' ' = '+' then
    let ds := t.tail.takeWhile Char.isDigit
    if ds = [] then .nan else .num (digitsVal ds : Int)
  else
    let ds := t.takeWhile Char.isDigit
    if ds = [] then .nan else .num (digitsVal ds : Int)

/-- Decimal rendering of a JS integer (the implicit `String(n)` conversion
performed by `Array.prototype.join`). -/
def jsIntToChars (v : Int) : List Char :=
  if v < 0 then '-' :: Nat.toDigits 10 (-v).toNat else Nat.toDigits 10 v.toNat

/-- JavaScript `Array.prototype.slice(s, e)` with possibly negative or
out-of-range endpoints. -/
def jsSlice (l : List α) (s e : Int) : List α :=
  let n : Int := l.length
  let s' := if s < 0 then max (n + s) 0 else min s n
  let e' := if e < 0 then max (n + e) 0 else min e n
  (l.take e'.toNat).drop s'.toNat

end JSem

namespace NetworkScan

open JSem

/-- Liveness verdict of the network-scan handler (`status` field of its
`ScanResult` interface). -/
inductive HStatus where
  | active : HStatus
  | inactive : HStatus
deriving DecidableEq, Repr

/-- The `ScanResult` interface of the network-scan handler. -/
structure ScanResult where
  ip : List Char
  status : HStatus
  responseTime : Option Nat := none
  method : List Char
deriving DecidableEq, Repr

/-- Outcome of invoking the external `ping` facility for one host:
the command may be impossible to spawn (`unavailable`, the `catch` branch of
`icmpPing`), or it runs and reports success or failure. -/
inductive PingOutcome where
  | unavailable : PingOutcome
  | ran (success : Bool) : PingOutcome
deriving DecidableEq, Repr

/-- The network environment one `scanHost` call observes: the ping outcome,
which ports accept a TCP connection for this host, and the elapsed times the
clock reads on a successful probe. -/
structure HostEnv where
  ping : PingOutcome
  pingElapsed : Nat
  tcpOpen : Nat → Bool
  tcpElapsed : Nat

/-- The fixed port list `tcpCheck` walks. -/
def tcpPorts : List Nat :=
  [80, 443, 22, 445, 139, 21, 23, 3389, 8080, 53, 25, 110, 3306, 5432]

/-- `tcpCheck`: try the well-known ports in order; the first successful
connection yields `active` with method `tcp:<port>`, exhaustion yields
`inactive` with method `tcp`. -/
def tcpCheck (env : HostEnv) (ip : List Char) : ScanResult :=
  match tcpPorts.find? env.tcpOpen with
  | some p =>
    { ip := ip, status := .active, responseTime := some env.tcpElapsed,
      method := "tcp:".toList ++ jsIntToChars (Int.ofNat p) }
  | none =>
    { ip := ip, status := .inactive, responseTime := none, method := "tcp".toList }

/-- `icmpPing`: run the external ping command; an unavailable facility throws
(modelled as `Except.error`), otherwise the exit status decides the verdict. -/
def icmpPing (env : HostEnv) (ip : List Char) : Except Unit ScanResult :=
  match env.ping with
  | .unavailable => .error ()
  | .ran true =>
    .ok { ip := ip, status := .active, responseTime := some env.pingElapsed,
          method := "icmp".toList }
  | .ran false =>
    .ok { ip := ip, status := .inactive, responseTime := none, method := "icmp".toList }

/-- `scanHost` with the process-wide `usePing` flag threaded explicitly:
returns the result together with the flag's value after the call. -/
def scanHost (env : HostEnv) (ip : List Char) (usePing : Bool) : ScanResult × Bool :=
  if usePing then
    match icmpPing env ip with
    | .ok r => (r, true)
    | .error _ => (tcpCheck env ip, false)
  else
    (tcpCheck env ip, false)

/-- A sequence of `scanHost` calls within one process, threading `usePing`. -/
def scanHosts (l : List (HostEnv × List Char)) (usePing : Bool) :
    List ScanResult × Bool :=
  match l with
  | [] => ([], usePing)
  | (e, ip) :: rest =>
    let s := scanHost e ip usePing
    let r := scanHosts rest s.2
    (s.1 :: r.1, r.2)

/-- Error message thrown for a CIDR suffix outside `[24,32]`. -/
def cidrBitsErr : List Char := "CIDR range must be between /24 and /32".toList

/-- Error message thrown for a dash range spanning more than 254 addresses. -/
def rangeTooLargeErr : List Char := "Range too large. Maximum 254 IPs allowed.".toList

/-- `(parts[0] << 24) | (parts[1] << 16) | (parts[2] << 8) | parts[3]` —
the signed 32-bit number the handler builds from the split octet strings
(missing array entries read as `undefined`, which the bitwise operators
coerce like `NaN`). -/
def quadToNum (parts : List JSNum) : Int :=
  or32
    (.num (or32
      (.num (or32
        (.num (shl32 (parts.getD 0 .nan) (.num 24)))
        (.num (shl32 (parts.getD 1 .nan) (.num 16)))))
      (.num (shl32 (parts.getD 2 .nan) (.num 8)))))
    (parts.getD 3 .nan)

/-- `[(ipNum >>> 24) & 255, (ipNum >>> 16) & 255, (ipNum >>> 8) & 255,
ipNum & 255].join(".")`. -/
def emitIp (x : Int) : List Char :=
  let o0 := and32 (.num (ushr32 (.num x) (.num 24))) (.num 255)
  let o1 := and32 (.num (ushr32 (.num x) (.num 16))) (.num 255)
  let o2 := and32 (.num (ushr32 (.num x) (.num 8))) (.num 255)
  let o3 := and32 (.num x) (.num 255)
  jsIntToChars o0 ++ '.' :: jsIntToChars o1 ++ '.' :: jsIntToChars o2 ++
    '.' :: jsIntToChars o3

/-- The integers visited by `for (let i = s; i <= e; i++)`. -/
def intRangeList (s e : Int) : List Int :=
  (List.range' 0 (e + 1 - s).toNat).map (fun k => s + (k : Int))

/-- The body of `parseIPRange`'s CIDR branch after the bits guard:
`for (let i = 1; i < numHosts - 1; i++) ips.push(<dotted quad of network+i>)`. -/
def cidrExpand (bits : JSNum) (parts : List JSNum) : List (List Char) :=
  let baseNum := quadToNum parts
  let hostBits := jsSub (.num 32) bits
  let numHosts := jsPow2 hostBits
  let networkAddress :=
    and32 (.num baseNum) (.num (shl32 (.num (not32 (.num 0))) hostBits))
  let count :=
    match jsSub numHosts (.num 1) with
    | .nan => 0
    | .num b => (b - 1).toNat
  (List.range' 1 count).map (fun i : Nat => emitIp (networkAddress + (i : Int)))

/-- `parseIPRange`: CIDR expansion, dash-range expansion, or single-IP
passthrough; `throw` is modelled as `Except.error` carrying the message. -/
def parseIPRange (input : List Char) : Except (List Char) (List (List Char)) :=
  if input.contains '/' then
    let pieces := splitOnCh '/' input
    let baseIp := pieces.getD 0 []
    let cidrBits := pieces.getD 1 []
    let bits := jsParseInt cidrBits
    if jsLt bits (.num 24) || jsGt bits (.num 32) then
      .error cidrBitsErr
    else
      .ok (cidrExpand bits ((splitOnCh '.' baseIp).map jsNumberOf))
  else if input.contains '-' then
    let pieces := (splitOnCh '-' input).map trimChars
    let startIp := pieces.getD 0 []
    let endIp := pieces.getD 1 []
    let startParts := (splitOnCh '.' startIp).map jsNumberOf
    let endParts := (splitOnCh '.' endIp).map jsNumberOf
    let startNum := quadToNum startParts
    let endNum := quadToNum endParts
    if jsGt (jsSub (.num endNum) (.num startNum)) (.num 254) then
      .error rangeTooLargeErr
    else
      .ok ((intRangeList startNum endNum).map emitIp)
  else
    .ok [trimChars input]

/-- One pass of the handler's batching loop
`for (let i = 0; i < ips.length; i += batchSize)`, with explicit fuel.
Within a batch, `Promise.all(batch.map(worker))` resolves to the workers'
results in batch order. -/
def scanBatches (l : List α) (w : α → β) (bs : Int) :
    Nat → Int → List β → Option (List β)
  | 0, _, _ => none
  | fuel + 1, i, acc =>
    if i < (l.length : Int) then
      scanBatches l w bs fuel (i + bs) (acc ++ (jsSlice l i (i + bs)).map w)
    else
      some acc

/-- The handler's batched scan over a work list: the loop, started at index 0,
given enough fuel to cover every terminating execution. -/
def runBatched (l : List α) (w : α → β) (bs : Int) : Option (List β) :=
  scanBatches l w bs (l.length + 1) 0 []

end NetworkScan

namespace PortScan

open JSem

/-- Port probe verdict (`status` field of the `PortResult` interface). -/
inductive PStatus where
  | open_ : PStatus
  | closed : PStatus
  | filtered : PStatus
deriving DecidableEq, Repr

/-- The `PortResult` interface of the port-scan handler. -/
structure PortResult where
  port : Int
  status : PStatus
  service : Option (List Char) := none
  responseTime : Option Nat := none
deriving DecidableEq, Repr

/-- The `PORT_INFO` well-known-port table. -/
def PORT_INFO : List (Int × List Char) :=
  [(20, "FTP Data".toList), (21, "FTP Control".toList), (22, "SSH".toList),
   (23, "Telnet".toList), (25, "SMTP".toList), (53, "DNS".toList),
   (80, "HTTP".toList), (110, "POP3".toList), (143, "IMAP".toList),
   (443, "HTTPS".toList), (445, "SMB".toList), (993, "IMAPS".toList),
   (995, "POP3S".toList), (1433, "MSSQL".toList), (1521, "Oracle".toList),
   (3306, "MySQL".toList), (3389, "RDP".toList), (5432, "PostgreSQL".toList),
   (5900, "VNC".toList), (6379, "Redis".toList), (8080, "HTTP Proxy".toList),
   (8443, "HTTPS Alt".toList), (27017, "MongoDB".toList)]

/-- `PORT_INFO[port] || undefined`. -/
def portInfo (port : Int) : Option (List Char) :=
  (PORT_INFO.find? (fun x => x.1 == port)).map (fun x => x.2)

/-- How the race between `Deno.connect` and the timeout timer settles for one
`checkPort` call: the connection resolves first (after `elapsed` ms), the
timer's `reject(new Error("timeout"))` wins, or the connection attempt itself
rejects with some error message. -/
inductive RaceOutcome where
  | connected (elapsed : Nat) : RaceOutcome
  | timerWon : RaceOutcome
  | connError (msg : List Char) : RaceOutcome
deriving DecidableEq, Repr

/-- The `catch` branch of `checkPort`: a rejection whose message is exactly
`"timeout"` is classified `filtered`, every other rejection `closed`. -/
def checkPortCatch (msg : List Char) (port : Int) : PortResult :=
  if msg = "timeout".toList then
    { port := port, status := .filtered, service := portInfo port }
  else
    { port := port, status := .closed, service := portInfo port }

/-- `checkPort`: race a TCP connect against a timer and classify the outcome.
The function is total — every outcome maps to a `PortResult`, mirroring the
source's try/catch that never rethrows. -/
def checkPort (env : RaceOutcome) (ip : List Char) (port : Int)
    (timeout : Nat) : PortResult :=
  match env with
  | .connected elapsed =>
    { port := port, status := .open_, service := portInfo port,
      responseTime := some elapsed }
  | .timerWon => checkPortCatch "timeout".toList port
  | .connError msg => checkPortCatch msg port

/-- One push attempt of `parsePortRange`'s loops:
`if (i >= 1 && i <= 65535 && !ports.includes(i)) ports.push(i)`. -/
def pushPort (acc : List Int) (i : Int) : List Int :=
  if 1 ≤ i ∧ i ≤ 65535 ∧ ¬ acc.contains i then acc ++ [i] else acc

/-- Processing of one comma-separated token by `parsePortRange`. -/
def portToken (acc : List Int) (part : List Char) : List Int :=
  if part.contains '-' then
    let seg := splitOnCh '-' part
    match jsNumberOf (seg.getD 0 []), jsNumberOf (seg.getD 1 []) with
    | .num s, .num e => (NetworkScan.intRangeList s e).foldl pushPort acc
    | _, _ => acc
  else
    match jsParseInt part with
    | .num p => pushPort acc p
    | .nan => acc

/-- `parsePortRange`: split on commas, trim, expand each token with in-range
and duplicate filtering, and keep the first 100 ports. -/
def parsePortRange (input : List Char) : List Int :=
  let parts := (splitOnCh ',' input).map trimChars
  (parts.foldl portToken []).take 100

/-- The `PORT_PRESETS` table. -/
def PORT_PRESETS (name : List Char) : Option (List Int) :=
  if name = "common".toList then
    some [21, 22, 23, 25, 53, 80, 110, 143, 443, 445, 993, 995, 3306, 3389, 5432, 8080]
  else if name = "web".toList then
    some [80, 443, 8080, 8443]
  else if name = "database".toList then
    some [1433, 1521, 3306, 5432, 6379, 27017]
  else if name = "all".toList then
    some [20, 21, 22, 23, 25, 53, 80, 110, 143, 443, 445, 993, 995, 1433, 1521,
          3306, 3389, 5432, 5900, 6379, 8080, 8443, 27017]
  else none

/-- The `common` preset. -/
def commonPorts : List Int :=
  [21, 22, 23, 25, 53, 80, 110, 143, 443, 445, 993, 995, 3306, 3389, 5432, 8080]

/-- The handler's port selection: `preset && PORT_PRESETS[preset]` wins, else
a truthy `ports` string is parsed, else the `common` preset.  `none` models an
absent JSON field and the empty string is falsy. -/
def portsToScan (preset : Option (List Char)) (ports : Option (List Char)) :
    List Int :=
  match preset with
  | some p =>
    if p ≠ [] then
      match PORT_PRESETS p with
      | some l => l
      | none => portsFallback ports
    else portsFallback ports
  | none => portsFallback ports
where
  /-- `else if (ports) ... else PORT_PRESETS.common`. -/
  portsFallback : Option (List Char) → List Int
    | some s => if s ≠ [] then parsePortRange s else commonPorts
    | none => commonPorts

end PortScan

/-! ## Basic lemmas about the string machinery -/

namespace JSem

/-- A decimal digit differs from any character that is not a digit. -/
theorem digit_ne {ch c : Char} (h : ch.isDigit = true) (hc : c.isDigit = false) :
    ch ≠ c := by
  intro e
  subst e
  rw [h] at hc
  cases hc

/-- Decimal digits are not whitespace. -/
theorem digit_not_ws {ch : Char} (h : ch.isDigit = true) : isWsCh ch = false := by
  have h1 : ch ≠ ' ' := digit_ne h (by decide)
  have h2 : ch ≠ '\t' := digit_ne h (by decide)
  have h3 : ch ≠ '\n' := digit_ne h (by decide)
  have h4 : ch ≠ '\r' := digit_ne h (by decide)
  simp [isWsCh, h1, h2, h3, h4]

/-- `dropWhile` leaves a list alone when its head already fails the test. -/
theorem dropWhile_eq_self_of_head {p : Char → Bool} {l : List Char}
    (h : ∀ ch ∈ l, p ch = false) : l.dropWhile p = l := by
  cases l with
  | nil => rfl
  | cons x xs =>
    rw [List.dropWhile_cons_of_neg]
    simp [h x (by simp)]

/-- `takeWhile` keeps a list whose members all pass the test. -/
theorem takeWhile_eq_self_of_all {p : Char → Bool} {l : List Char}
    (h : ∀ ch ∈ l, p ch = true) : l.takeWhile p = l := by
  induction l with
  | nil => rfl
  | cons x xs ih =>
    rw [List.takeWhile_cons_of_pos (h x (by simp))]
    rw [ih (fun ch hm => h ch (by simp [hm]))]

/-- Trimming a string with no whitespace characters is the identity. -/
theorem trimChars_eq_self {l : List Char} (h : ∀ ch ∈ l, isWsCh ch = false) :
    trimChars l = l := by
  unfold trimChars
  rw [dropWhile_eq_self_of_head h]
  rw [dropWhile_eq_self_of_head (fun ch hm => h ch (List.mem_reverse.mp hm))]
  exact List.reverse_reverse l

/-- A string of decimal digits contains no comma, dash, slash, dot, sign or
whitespace; packaged as membership implications used by the split lemmas. -/
theorem mem_digits_ne {l : List Char} (h : l.all Char.isDigit = true) {c : Char}
    (hc : c.isDigit = false) : ∀ ch ∈ l, ch ≠ c := by
  intro ch hm
  exact digit_ne (List.all_eq_true.mp h ch hm) hc

/-- `parseInt` on a pure digit string returns its decimal value. -/
theorem jsParseInt_digits {l : List Char} (h0 : l ≠ [])
    (h : l.all Char.isDigit = true) : jsParseInt l = .num (digitsVal l) := by
  obtain ⟨x, xs, rfl⟩ := List.exists_cons_of_ne_nil h0
  have hx : x.isDigit = true := List.all_eq_true.mp h x (by simp)
  have hdrop : (x :: xs).dropWhile isWsCh = x :: xs :=
    dropWhile_eq_self_of_head (fun ch hm =>
      digit_not_ws (List.all_eq_true.mp h ch hm))
  have htake : (x :: xs).takeWhile Char.isDigit = x :: xs :=
    takeWhile_eq_self_of_all (List.all_eq_true.mp h)
  unfold jsParseInt
  rw [hdrop]
  have hminus : x ≠ '-' := digit_ne hx (by decide)
  have hplus : x ≠ '+' := digit_ne hx (by decide)
  simp only [List.headD_cons, if_neg hminus, if_neg hplus, htake]
  simp

/-- `Number()` on a pure digit string returns its decimal value. -/
theorem jsNumberOf_digits {l : List Char} (h0 : l ≠ [])
    (h : l.all Char.isDigit = true) : jsNumberOf l = .num (digitsVal l) := by
  obtain ⟨x, xs, rfl⟩ := List.exists_cons_of_ne_nil h0
  have hx : x.isDigit = true := List.all_eq_true.mp h x (by simp)
  have htrim : trimChars (x :: xs) = x :: xs :=
    trimChars_eq_self (fun ch hm => digit_not_ws (List.all_eq_true.mp h ch hm))
  have hminus : x ≠ '-' := digit_ne hx (by decide)
  have hplus : x ≠ '+' := digit_ne hx (by decide)
  unfold jsNumberOf
  rw [htrim]
  simp only [List.headD_cons, if_neg hminus, if_neg hplus]
  simp [h]

/-- Unfolding equation of `splitOnCh` on a nonempty string. -/
theorem splitOnCh_cons (c x : Char) (xs : List Char) :
    splitOnCh c (x :: xs) =
      if x = c then [] :: splitOnCh c xs
      else
        match splitOnCh c xs with
        | [] => [[x]]
        | t :: ts => (x :: t) :: ts := rfl

/-- `splitOnCh` always produces at least one chunk. -/
theorem splitOnCh_ne_nil (c : Char) (l : List Char) : splitOnCh c l ≠ [] := by
  induction l with
  | nil => simp [splitOnCh]
  | cons x xs ih =>
    unfold splitOnCh
    by_cases hx : x = c
    · simp [hx]
    · rw [if_neg hx]
      match hs : splitOnCh c xs with
      | [] => exact absurd hs ih
      | t :: ts => simp

/-- Splitting a string that does not contain the separator yields it whole. -/
theorem splitOnCh_of_not_mem {c : Char} {l : List Char}
    (h : ∀ ch ∈ l, ch ≠ c) : splitOnCh c l = [l] := by
  induction l with
  | nil => rfl
  | cons x xs ih =>
    unfold splitOnCh
    rw [if_neg (h x (by simp))]
    rw [ih (fun ch hm => h ch (by simp [hm]))]

/-- Splitting a string whose first separator occurrence is explicit peels off
the first chunk. -/
theorem splitOnCh_append_cons {c : Char} (xs ys : List Char)
    (h : ∀ ch ∈ xs, ch ≠ c) :
    splitOnCh c (xs ++ c :: ys) = xs :: splitOnCh c ys := by
  induction xs with
  | nil => simp [splitOnCh]
  | cons x xt ih =>
    have hx : x ≠ c := h x (by simp)
    rw [List.cons_append]
    rw [splitOnCh_cons, if_neg hx, ih (fun ch hm => h ch (by simp [hm]))]

/-- Every chunk produced by `splitOnCh` is free of the separator. -/
theorem splitOnCh_chunks_ne {c : Char} {l : List Char} :
    ∀ p ∈ splitOnCh c l, ∀ ch ∈ p, ch ≠ c := by
  induction l with
  | nil =>
    intro p hp
    simp [splitOnCh] at hp
    simp [hp]
  | cons x xs ih =>
    intro p hp
    unfold splitOnCh at hp
    by_cases hx : x = c
    · rw [if_pos hx] at hp
      rcases List.mem_cons.mp hp with h1 | h2
      · simp [h1]
      · exact ih p h2
    · rw [if_neg hx] at hp
      match hs : splitOnCh c xs with
      | [] => exact absurd hs (splitOnCh_ne_nil c xs)
      | t :: ts =>
        rw [hs] at hp
        rcases List.mem_cons.mp hp with h1 | h2
        · subst h1
          intro ch hm
          rcases List.mem_cons.mp hm with h3 | h4
          · simpa [h3] using hx
          · exact ih t (by simp [hs]) ch h4
        · exact ih p (by simp [hs, h2])

/-- Joining chunks back with the separator (`Array.prototype.join`-style). -/
def joinCh (c : Char) : List (List Char) → List Char
  | [] => []
  | [t] => t
  | t :: ts => t ++ c :: joinCh c ts

/-- Joining the chunks of a split reconstructs the original string. -/
theorem joinCh_splitOnCh (c : Char) (l : List Char) :
    joinCh c (splitOnCh c l) = l := by
  induction l with
  | nil => rfl
  | cons x xs ih =>
    unfold splitOnCh
    by_cases hx : x = c
    · rw [if_pos hx]
      match hs : splitOnCh c xs with
      | [] => exact absurd hs (splitOnCh_ne_nil c xs)
      | t :: ts =>
        rw [hs] at ih
        simp only [joinCh, hx]
        simp [ih]
    · rw [if_neg hx]
      match hs : splitOnCh c xs with
      | [] => exact absurd hs (splitOnCh_ne_nil c xs)
      | t :: ts =>
        rw [hs] at ih
        cases ts with
        | nil => simpa [joinCh] using ih
        | cons t' ts' =>
          simp only [joinCh] at ih ⊢
          simp [ih]

/-- Splitting a separator-free join recovers the chunk list. -/
theorem splitOnCh_joinCh {c : Char} {ts : List (List Char)}
    (h : ∀ t ∈ ts, ∀ ch ∈ t, ch ≠ c) (hne : ts ≠ []) :
    splitOnCh c (joinCh c ts) = ts := by
  induction ts with
  | nil => exact absurd rfl hne
  | cons t rest ih =>
    cases rest with
    | nil =>
      simp only [joinCh]
      exact splitOnCh_of_not_mem (h t (by simp))
    | cons t' rest' =>
      simp only [joinCh]
      rw [splitOnCh_append_cons _ _ (h t (by simp))]
      rw [ih (fun u hu ch hm => h u (by simp [hu]) ch hm) (by simp)]

/-- Membership gives a `true` result for `List.contains` on characters. -/
theorem contains_of_mem {l : List Char} {c : Char} (h : c ∈ l) :
    l.contains c = true := by
  simpa using h

/-- Absence of membership gives a `false` result for `List.contains`. -/
theorem contains_eq_false {l : List Char} {c : Char} (h : ∀ ch ∈ l, ch ≠ c) :
    l.contains c = false := by
  simp only [List.contains_eq_any_beq, List.any_eq_false]
  intro ch hm
  simpa using (h ch hm).symm

end JSem

/-! ## C5: port probe outcome classification -/

namespace PortScan

/-- C5: for every host, port and timeout, `checkPort` never throws (it is a
total function into `PortResult`) and classifies the race outcome into exactly
three statuses: a handshake completing within the timeout gives `open` with
`responseTime` set to the elapsed time; the timer winning the race gives
`filtered`; a definitive connection refusal (any rejection other than the
timer's `"timeout"`) gives `closed`; and `responseTime` is present exactly
when the status is `open`. -/
theorem checkPort_classification (env : RaceOutcome) (ip : List Char)
    (port : Int) (timeout : Nat) :
    ((checkPort env ip port timeout).status = .open_ ∨
      (checkPort env ip port timeout).status = .closed ∨
      (checkPort env ip port timeout).status = .filtered)
    ∧ (∀ e, env = .connected e →
        (checkPort env ip port timeout).status = .open_ ∧
        (checkPort env ip port timeout).responseTime = some e)
    ∧ (env = .timerWon → (checkPort env ip port timeout).status = .filtered)
    ∧ (∀ msg, env = .connError msg → msg ≠ "timeout".toList →
        (checkPort env ip port timeout).status = .closed)
    ∧ (∀ msg, env = .connError msg → msg = "timeout".toList →
        (checkPort env ip port timeout).status = .filtered)
    ∧ ((checkPort env ip port timeout).responseTime.isSome ↔
        (checkPort env ip port timeout).status = .open_) := by
  refine ⟨?_, ?_, ?_, ?_, ?_, ?_⟩
  · cases env with
    | connected e => simp [checkPort]
    | timerWon => simp [checkPort, checkPortCatch]
    | connError msg =>
      by_cases h : msg = "timeout".toList <;>
        simp only [checkPort, checkPortCatch, if_pos, if_neg, h, ite_true,
          ite_false] <;> simp
  · intro e he
    subst he
    simp [checkPort]
  · intro he
    subst he
    simp [checkPort, checkPortCatch]
  · intro msg he hne
    subst he
    simp only [checkPort, checkPortCatch, if_neg hne]
  · intro msg he heq
    subst he
    simp only [checkPort, checkPortCatch, if_pos heq]
  · cases env with
    | connected e => simp [checkPort]
    | timerWon => simp [checkPort, checkPortCatch]
    | connError msg =>
      by_cases h : msg = "timeout".toList <;>
        simp only [checkPort, checkPortCatch, if_pos, if_neg, h, ite_true,
          ite_false] <;> simp

/-- Witness for C5 at concrete race outcomes. -/
theorem checkPort_classification_witness :
    ((checkPort (.connected 12) ("1.2.3.4".toList) 80 3000).status = .open_ ∧
      (checkPort (.connected 12) ("1.2.3.4".toList) 80 3000).responseTime = some 12)
    ∧ (checkPort .timerWon ("1.2.3.4".toList) 81 3000).status = .filtered
    ∧ (checkPort (.connError ("Connection refused".toList))
        ("1.2.3.4".toList) 22 3000).status = .closed := by
  refine ⟨?_, ?_, ?_⟩
  · exact (checkPort_classification (.connected 12) ("1.2.3.4".toList) 80 3000).2.1
      12 rfl
  · exact (checkPort_classification .timerWon ("1.2.3.4".toList) 81 3000).2.2.1 rfl
  · exact (checkPort_classification (.connError ("Connection refused".toList))
      ("1.2.3.4".toList) 22 3000).2.2.2.1 ("Connection refused".toList) rfl
      (by decide)

end PortScan

/-! ## C3: the process-wide usePing flag is monotone -/

namespace NetworkScan

/-- Helper: with the flag already false, `scanHost` is exactly the TCP
fallback and the flag stays false. -/
theorem scanHost_false (env : HostEnv) (ip : List Char) :
    scanHost env ip false = (tcpCheck env ip, false) := by
  simp [scanHost]

/-- C3: the `usePing` flag is mutated only from `true` to `false` and never
back: a probe whose flag comes out `true` must have started with `true`; any
probe that observes the ICMP facility to be unavailable leaves the flag
`false`; once the flag is `false` every probe (current and subsequent, for
hosts not yet probed) runs the TCP fallback, and a whole probe sequence
started with the flag `false` runs the TCP fallback throughout and ends with
the flag still `false`. -/
theorem usePing_monotone :
    (∀ (env : HostEnv) (ip : List Char) (f : Bool),
      (scanHost env ip f).2 = true → f = true)
    ∧ (∀ (env : HostEnv) (ip : List Char) (f : Bool),
        env.ping = .unavailable → (scanHost env ip f).2 = false)
    ∧ (∀ (env : HostEnv) (ip : List Char),
        (scanHost env ip false).1 = tcpCheck env ip)
    ∧ (∀ (l : List (HostEnv × List Char)),
        scanHosts l false = (l.map (fun x => tcpCheck x.1 x.2), false)) := by
  refine ⟨?_, ?_, ?_, ?_⟩
  · intro env ip f h
    cases f with
    | true => rfl
    | false =>
      rw [scanHost_false] at h
      exact h
  · intro env ip f hping
    cases f with
    | false => rw [scanHost_false]
    | true =>
      simp [scanHost, icmpPing, hping]
  · intro env ip
    rw [scanHost_false]
  · intro l
    induction l with
    | nil => rfl
    | cons x rest ih =>
      obtain ⟨e, ip⟩ := x
      simp only [scanHosts, scanHost_false, ih]
      simp

/-- Witness for C3 at a concrete environment: an unavailable ping facility
flips the flag to `false`, and from `false` the TCP fallback is used. -/
theorem usePing_monotone_witness :
    (scanHost ⟨.unavailable, 0, fun p => p == 443, 9⟩ ("10.0.0.1".toList) true).2
      = false
    ∧ (scanHost ⟨.ran true, 3, fun _ => false, 0⟩ ("10.0.0.2".toList) false).1
      = tcpCheck ⟨.ran true, 3, fun _ => false, 0⟩ ("10.0.0.2".toList)
    ∧ scanHosts [(⟨.ran true, 3, fun _ => false, 0⟩, "10.0.0.3".toList)] false
      = ([tcpCheck ⟨.ran true, 3, fun _ => false, 0⟩ ("10.0.0.3".toList)], false) := by
  refine ⟨?_, ?_, ?_⟩
  · exact usePing_monotone.2.1 ⟨.unavailable, 0, fun p => p == 443, 9⟩
      ("10.0.0.1".toList) true rfl
  · exact usePing_monotone.2.2.1 ⟨.ran true, 3, fun _ => false, 0⟩ ("10.0.0.2".toList)
  · exact usePing_monotone.2.2.2 [(⟨.ran true, 3, fun _ => false, 0⟩, "10.0.0.3".toList)]

end NetworkScan

/-! ## C4/C10: the batching loop -/

namespace NetworkScan

/-- `take` only depends on the number of elements actually kept. -/
theorem take_congr_min {α : Type _} : ∀ (l : List α) (m n : Nat),
    min m l.length = min n l.length → l.take m = l.take n := by
  intro l
  induction l with
  | nil => intro m n _; simp
  | cons x xs ih =>
    intro m n h
    cases m with
    | zero =>
      cases n with
      | zero => rfl
      | succ n' => simp only [List.length_cons] at h; omega
    | succ m' =>
      cases n with
      | zero => simp only [List.length_cons] at h; omega
      | succ n' =>
        simp only [List.take_succ_cons]
        rw [ih m' n' (by simp only [List.length_cons] at h ⊢; omega)]

/-- For a non-negative start index and batch size, `slice(i, i + bs)` is the
`bs`-element chunk starting at `i`. -/
theorem jsSlice_chunk {α : Type _} (l : List α) (i bs : Int) (hi : 0 ≤ i)
    (hbs : 0 ≤ bs) :
    JSem.jsSlice l i (i + bs) = (l.drop i.toNat).take bs.toNat := by
  simp only [JSem.jsSlice]
  rw [if_neg (show ¬ i < 0 by omega), if_neg (show ¬ i + bs < 0 by omega)]
  have hmn : (min i (l.length : Int)).toNat = min i.toNat l.length := by omega
  have hen : (min (i + bs) (l.length : Int)).toNat = min (i + bs).toNat l.length := by
    omega
  rw [hmn, hen]
  by_cases hc : i.toNat ≤ l.length
  · have h1 : min i.toNat l.length = i.toNat := by omega
    rw [h1]
    have h2 : (l.take (min (i + bs).toNat l.length)).drop i.toNat
        = (l.drop i.toNat).take (min (i + bs).toNat l.length - i.toNat) := by
      rw [List.take_drop]
      have h3 : i.toNat + (min (i + bs).toNat l.length - i.toNat)
          = min (i + bs).toNat l.length := by omega
      rw [h3]
    rw [h2]
    apply take_congr_min
    simp only [List.length_drop]
    omega
  · have h1 : min i.toNat l.length = l.length := by omega
    rw [h1]
    have h2 : l.drop i.toNat = [] := List.drop_eq_nil_iff.mpr (by omega)
    rw [h2, List.take_nil]
    have h3 : min (i + bs).toNat l.length = l.length := by omega
    rw [h3, List.take_length]
    exact List.drop_eq_nil_iff.mpr (by omega)

/-- With a positive batch size and enough fuel, the batching loop visits the
whole list in order and maps the worker over it. -/
theorem scanBatches_pos {α β : Type _} (l : List α) (w : α → β) (bs : Int)
    (hbs : 1 ≤ bs) :
    ∀ (fuel : Nat) (i : Nat) (acc : List β), l.length - i < fuel →
      scanBatches l w bs fuel (i : Int) acc = some (acc ++ (l.drop i).map w) := by
  intro fuel
  induction fuel with
  | zero => intro i acc h; omega
  | succ f ih =>
    intro i acc h
    unfold scanBatches
    by_cases hc : (i : Int) < (l.length : Int)
    · rw [if_pos hc]
      rw [jsSlice_chunk l (i : Int) bs (by omega) (by omega)]
      have hidx : (i : Int) + bs = ((i + bs.toNat : Nat) : Int) := by omega
      have hn : ((i : Int)).toNat = i := by omega
      rw [hn, hidx, ih (i + bs.toNat) _ (by omega)]
      have hdd : List.drop (i + bs.toNat) l = List.drop bs.toNat (List.drop i l) := by
        rw [List.drop_drop]
      rw [hdd, List.append_assoc, ← List.map_append, List.take_append_drop]
    · rw [if_neg hc]
      have hge : l.length ≤ i := by omega
      rw [List.drop_eq_nil_iff.mpr hge]
      simp

/-- With a non-positive batch size and a nonempty list, the loop index never
reaches the exit condition: the loop exhausts any amount of fuel. -/
theorem scanBatches_nonpos {α β : Type _} (l : List α) (w : α → β) (bs : Int)
    (hbs : bs ≤ 0) (hl : l ≠ []) :
    ∀ (fuel : Nat) (i : Int) (acc : List β), i ≤ 0 →
      scanBatches l w bs fuel i acc = none := by
  intro fuel
  induction fuel with
  | zero => intro i acc _; rfl
  | succ f ih =>
    intro i acc hi
    unfold scanBatches
    have hlen : 0 < l.length := List.length_pos.mpr hl
    rw [if_pos (by omega)]
    exact ih (i + bs) _ (by omega)

/-- C4: for every input list and every `batchSize ≥ 1`, the batched scan
terminates and returns one result per input item in positional
correspondence: the `i`-th output element is the worker's result on the
`i`-th input element. -/
theorem runBatched_preserves_order {α β : Type _} (l : List α) (w : α → β)
    (bs : Int) (hbs : 1 ≤ bs) :
    ∃ res : List β, runBatched l w bs = some res ∧ res.length = l.length ∧
      ∀ (i : Nat) (hi : i < l.length) (hr : i < res.length),
        res.get ⟨i, hr⟩ = w (l.get ⟨i, hi⟩) := by
  refine ⟨l.map w, ?_, by simp, ?_⟩
  · unfold runBatched
    have h := scanBatches_pos l w bs hbs (l.length + 1) 0 [] (by omega)
    simpa using h
  · intro i hi hr
    simp

/-- Witness for C4 at a concrete list and batch size 2. -/
theorem runBatched_preserves_order_witness :
    (1 : Int) ≤ 2 ∧
    ∃ res : List Nat, runBatched [10, 20, 30, 40, 50] (fun n => n + 7) 2 = some res ∧
      res.length = ([10, 20, 30, 40, 50] : List Nat).length ∧
      ∀ (i : Nat) (hi : i < ([10, 20, 30, 40, 50] : List Nat).length)
        (hr : i < res.length),
        res.get ⟨i, hr⟩ = ([10, 20, 30, 40, 50] : List Nat).get ⟨i, hi⟩ + 7 :=
  ⟨by decide, runBatched_preserves_order [10, 20, 30, 40, 50] (fun n => n + 7) 2
    (by decide)⟩

/-- C10: the host-batching loop terminates (with enough fuel for at most one
batch per element) exactly under the precondition `batchSize ≥ 1`; a request
supplying `batchSize = 0` or a negative value makes the loop non-terminating
on any nonempty host list — no amount of fuel makes it finish. -/
theorem scanBatches_termination {α β : Type _} (l : List α) (w : α → β)
    (bs : Int) :
    (1 ≤ bs → ∃ res : List β, runBatched l w bs = some res)
    ∧ (bs ≤ 0 → l ≠ [] → ∀ fuel : Nat, scanBatches l w bs fuel 0 [] = none) := by
  constructor
  · intro hbs
    obtain ⟨res, hres, -⟩ := runBatched_preserves_order l w bs hbs
    exact ⟨res, hres⟩
  · intro hbs hl fuel
    exact scanBatches_nonpos l w bs hbs hl fuel 0 [] (by omega)

/-- Witness for C10: with batch size 1 the loop finishes; with batch size 0
it returns `none` for a concrete fuel budget on a nonempty list. -/
theorem scanBatches_termination_witness :
    (∃ res : List Nat, runBatched [1, 2, 3] (fun n => n * 10) 1 = some res)
    ∧ scanBatches [1, 2, 3] (fun n => n * 10) 0 1000 0 [] = none := by
  constructor
  · exact (scanBatches_termination [1, 2, 3] (fun n => n * 10) 1).1 (by decide)
  · exact (scanBatches_termination [1, 2, 3] (fun n => n * 10) 0).2 (by decide)
      (by decide) 1000

end NetworkScan

/-! ## C6/C7: custom port spec resolution -/

namespace PortScan

open JSem

/-- Spec-side token grammar: a pure-digit token or a `digits-digits` range. -/
def goodToken (t : List Char) : Bool :=
  match splitOnCh '-' t with
  | [a] => !a.isEmpty && a.all Char.isDigit
  | [a, b] => (!a.isEmpty && a.all Char.isDigit) && (!b.isEmpty && b.all Char.isDigit)
  | _ => false

/-- Spec-side expansion of one token: an integer token denotes itself, an
`a-b` token the inclusive range. -/
def specTokenVals (t : List Char) : List Int :=
  match splitOnCh '-' t with
  | [a] => [(digitsVal a : Int)]
  | [a, b] => NetworkScan.intRangeList (digitsVal a) (digitsVal b)
  | _ => []

/-- Spec-side validity filter for ports. -/
def inPortRange (i : Int) : Bool :=
  decide (1 ≤ i) && decide (i ≤ 65535)

/-- One step of first-seen deduplication. -/
def dedupStep (acc : List Int) (i : Int) : List Int :=
  if acc.contains i then acc else acc ++ [i]

/-- First-seen-order deduplication of a stream of port numbers. -/
def dedupFirstSeen (l : List Int) : List Int :=
  l.foldl dedupStep []

/-- `pushPort` is `dedupStep` restricted to in-range values. -/
theorem pushPort_eq_dedupStep (acc : List Int) (i : Int) :
    pushPort acc i = if inPortRange i then dedupStep acc i else acc := by
  unfold pushPort dedupStep inPortRange
  by_cases h1 : 1 ≤ i
  · by_cases h2 : i ≤ 65535
    · by_cases h3 : acc.contains i <;> simp [h1, h2, h3]
    · simp [h1, h2]
  · simp [h1]

/-- Folding `pushPort` over a stream is folding `dedupStep` over its
in-range filtrate. -/
theorem foldl_pushPort_eq (vals : List Int) :
    ∀ acc, vals.foldl pushPort acc = (vals.filter inPortRange).foldl dedupStep acc := by
  induction vals with
  | nil => intro acc; rfl
  | cons v vs ih =>
    intro acc
    simp only [List.foldl_cons, pushPort_eq_dedupStep]
    by_cases h : inPortRange v
    · rw [List.filter_cons_of_pos h, List.foldl_cons, if_pos h, ih]
    · rw [List.filter_cons_of_neg (by simpa using h), if_neg h, ih]

/-- A character of a digit token is neither a comma nor whitespace, and a
good token also never contains a comma. -/
theorem goodToken_no_comma {t : List Char} (h : goodToken t = true) :
    ∀ ch ∈ t, ch ≠ ',' := by
  intro ch hm
  have hrec := joinCh_splitOnCh '-' t
  unfold goodToken at h
  match hs : splitOnCh '-' t with
  | [a] =>
    rw [hs] at h hrec
    simp only [joinCh] at hrec
    subst hrec
    simp only [Bool.and_eq_true] at h
    exact digit_ne (List.all_eq_true.mp h.2 ch hm) (by decide)
  | [a, b] =>
    rw [hs] at h hrec
    simp only [joinCh] at hrec
    subst hrec
    simp only [Bool.and_eq_true] at h
    rcases List.mem_append.mp hm with hma | hmb
    · exact digit_ne (List.all_eq_true.mp h.1.2 ch hma) (by decide)
    · rcases List.mem_cons.mp hmb with hdash | hmb2
      · simp [hdash]
      · exact digit_ne (List.all_eq_true.mp h.2.2 ch hmb2) (by decide)
  | [] => rw [hs] at h; cases h
  | a :: b :: c :: ts => rw [hs] at h; cases h

/-- A good token contains no whitespace, so trimming leaves it alone. -/
theorem goodToken_trim {t : List Char} (h : goodToken t = true) :
    trimChars t = t := by
  apply trimChars_eq_self
  intro ch hm
  have hrec := joinCh_splitOnCh '-' t
  unfold goodToken at h
  match hs : splitOnCh '-' t with
  | [a] =>
    rw [hs] at h hrec
    simp only [joinCh] at hrec
    subst hrec
    simp only [Bool.and_eq_true] at h
    exact digit_not_ws (List.all_eq_true.mp h.2 ch hm)
  | [a, b] =>
    rw [hs] at h hrec
    simp only [joinCh] at hrec
    subst hrec
    simp only [Bool.and_eq_true] at h
    rcases List.mem_append.mp hm with hma | hmb
    · exact digit_not_ws (List.all_eq_true.mp h.1.2 ch hma)
    · rcases List.mem_cons.mp hmb with hdash | hmb2
      · subst hdash; rfl
      · exact digit_not_ws (List.all_eq_true.mp h.2.2 ch hmb2)
  | [] => rw [hs] at h; cases h
  | a :: b :: c :: ts => rw [hs] at h; cases h

/-- On a good token, the source's token processing step is the fold of
`pushPort` over the spec-side expansion. -/
theorem portToken_good {t : List Char} (h : goodToken t = true) (acc : List Int) :
    portToken acc t = (specTokenVals t).foldl pushPort acc := by
  unfold goodToken at h
  match hs : splitOnCh '-' t with
  | [a] =>
    rw [hs] at h
    simp only [Bool.and_eq_true, Bool.not_eq_true', List.isEmpty_eq_false] at h
    have ht : a = t := by
      have hj := joinCh_splitOnCh '-' t
      rw [hs] at hj
      simpa [joinCh] using hj
    subst ht
    have hnd : a.contains '-' = false :=
      contains_eq_false (splitOnCh_chunks_ne a (by rw [hs]; simp))
    simp only [portToken, specTokenVals, hs, hnd, Bool.false_eq_true, if_false]
    rw [jsParseInt_digits h.1 h.2]
    simp
  | [a, b] =>
    rw [hs] at h
    simp only [Bool.and_eq_true, Bool.not_eq_true', List.isEmpty_eq_false] at h
    have ht : a ++ '-' :: b = t := by
      have hj := joinCh_splitOnCh '-' t
      rw [hs] at hj
      simpa [joinCh] using hj
    subst ht
    have hd : (a ++ '-' :: b).contains '-' = true :=
      contains_of_mem (by simp)
    simp only [portToken, specTokenVals, hs, hd, if_true,
      List.getD_cons_zero, List.getD_cons_succ]
    rw [jsNumberOf_digits h.1.1 h.1.2, jsNumberOf_digits h.2.1 h.2.2]
  | [] =>
    rw [hs] at h
    exact Bool.noConfusion h
  | a :: b :: c :: ts =>
    rw [hs] at h
    exact Bool.noConfusion h

/-- Folding the source's token step over good tokens is folding `pushPort`
over the concatenated spec-side streams. -/
theorem foldl_portToken_good (ts : List (List Char))
    (h : ∀ t ∈ ts, goodToken t = true) :
    ∀ acc, ts.foldl portToken acc = (ts.flatMap specTokenVals).foldl pushPort acc := by
  induction ts with
  | nil => intro acc; rfl
  | cons t rest ih =>
    intro acc
    rw [List.foldl_cons, List.flatMap_cons, List.foldl_append]
    rw [portToken_good (h t (by simp)) acc]
    exact ih (fun u hu => h u (by simp [hu])) _

/-- C6: resolving a custom port spec splits on commas, expands `a-b` tokens
inclusively, silently drops values outside `[1,65535]`, deduplicates in
first-seen order and truncates to 100 entries — stated as equality with the
spec-side pipeline on every comma-joined list of grammatical tokens — and in
particular `"80,22,80-82"` resolves to `[80, 22, 81, 82]`. -/
theorem parsePortRange_resolves (ts : List (List Char))
    (h : ∀ t ∈ ts, goodToken t = true) :
    parsePortRange (joinCh ',' ts)
      = (dedupFirstSeen ((ts.flatMap specTokenVals).filter inPortRange)).take 100
    ∧ parsePortRange ("80,22,80-82".toList) = [80, 22, 81, 82] := by
  constructor
  · cases hts : ts with
    | nil => decide
    | cons t rest =>
      rw [← hts]
      have hsplit : splitOnCh ',' (joinCh ',' ts) = ts :=
        splitOnCh_joinCh
          (fun u hu ch hm => goodToken_no_comma (h u hu) ch hm)
          (by rw [hts]; simp)
      simp only [parsePortRange]
      rw [hsplit]
      have htrim : ts.map trimChars = ts := by
        have hcongr : ts.map trimChars = ts.map id :=
          List.map_congr_left (fun u hu => goodToken_trim (h u hu))
        simpa using hcongr
      rw [htrim, foldl_portToken_good ts h, foldl_pushPort_eq]
      rfl
  · rfl

/-- Witness for C6 at the concrete token list of the spec's example. -/
theorem parsePortRange_resolves_witness :
    (∀ t ∈ ["80".toList, "22".toList, "80-82".toList], goodToken t = true)
    ∧ parsePortRange (joinCh ',' ["80".toList, "22".toList, "80-82".toList])
      = (dedupFirstSeen
          (((["80".toList, "22".toList, "80-82".toList].flatMap specTokenVals)).filter
            inPortRange)).take 100 :=
  ⟨by decide,
    (parsePortRange_resolves ["80".toList, "22".toList, "80-82".toList]
      (by decide)).1⟩

/-- A token with no dash and no parseable integer prefix contributes
nothing. -/
theorem portToken_drop {t : List Char} (h1 : t.contains '-' = false)
    (h2 : jsParseInt t = .nan) (acc : List Int) : portToken acc t = acc := by
  simp only [portToken, h1, Bool.false_eq_true, if_false, h2]

/-- Counterexample to C7 as stated: the custom spec `"80,abc,22"` contains
the token `"abc"`, which is neither an integer nor an `a-b` range, yet
`parsePortRange` does not fail — it resolves to `[80, 22]`, silently dropping
the malformed token. -/
theorem parsePortRange_malformed_no_error :
    parsePortRange ("80,abc,22".toList) = [80, 22] := rfl

/-- C7 (amended): a token of a custom port spec that is neither an integer
nor an `a-b` range never causes an error; a token with no dash and no digit
prefix is silently dropped (removing it from the spec leaves the result
unchanged), exactly like values outside `[1,65535]`, which are also silently
dropped (e.g. `"80,99999,22"` resolves to `[80, 22]`). -/
theorem parsePortRange_drops_malformed (pre post : List (List Char))
    (t : List Char)
    (hpre : ∀ u ∈ pre, ∀ ch ∈ u, ch ≠ ',')
    (hpost : ∀ u ∈ post, ∀ ch ∈ u, ch ≠ ',')
    (ht : ∀ ch ∈ t, ch ≠ ',')
    (htd : (trimChars t).contains '-' = false)
    (hti : jsParseInt (trimChars t) = .nan) :
    parsePortRange (joinCh ',' (pre ++ t :: post))
      = parsePortRange (joinCh ',' (pre ++ post))
    ∧ parsePortRange ("80,99999,22".toList) = [80, 22] := by
  refine ⟨?_, rfl⟩
  have hall : ∀ u ∈ pre ++ t :: post, ∀ ch ∈ u, ch ≠ ',' := by
    intro u hu
    rcases List.mem_append.mp hu with h1 | h2
    · exact hpre u h1
    · rcases List.mem_cons.mp h2 with h3 | h4
      · subst h3; exact ht
      · exact hpost u h4
  have hsplitL : splitOnCh ',' (joinCh ',' (pre ++ t :: post)) = pre ++ t :: post :=
    splitOnCh_joinCh hall (by simp)
  cases hpp : pre ++ post with
  | nil =>
    obtain ⟨hpre0, hpost0⟩ := List.append_eq_nil.mp hpp
    subst hpre0
    subst hpost0
    simp only [List.nil_append] at hsplitL ⊢
    simp only [parsePortRange, hsplitL]
    simp only [joinCh, splitOnCh]
    simp only [List.map_cons, List.map_nil, List.foldl_cons, List.foldl_nil]
    rw [portToken_drop htd hti]
    rfl
  | cons u rest =>
    rw [← hpp]
    have hsplitR : splitOnCh ',' (joinCh ',' (pre ++ post)) = pre ++ post :=
      splitOnCh_joinCh
        (fun v hv => hall v (by
          rcases List.mem_append.mp hv with h1 | h2
          · exact List.mem_append.mpr (Or.inl h1)
          · exact List.mem_append.mpr (Or.inr (List.mem_cons_of_mem _ h2))))
        (by rw [hpp]; simp)
    simp only [parsePortRange, hsplitL, hsplitR]
    rw [List.map_append, List.map_cons, List.map_append]
    rw [List.foldl_append, List.foldl_cons, List.foldl_append]
    rw [portToken_drop htd hti]

/-- Witness for C7's amended statement at the concrete spec `"80,abc,22"`. -/
theorem parsePortRange_drops_malformed_witness :
    parsePortRange (joinCh ',' (["80".toList] ++ "abc".toList :: ["22".toList]))
      = parsePortRange (joinCh ',' (["80".toList] ++ ["22".toList])) :=
  (parsePortRange_drops_malformed ["80".toList] ["22".toList] ("abc".toList)
    (by decide) (by decide) (by decide) (by decide) (by decide)).1

end PortScan

/-! ## C8: no InvalidFormat — unmatched strings pass through -/

namespace NetworkScan

open JSem

/-- Counterexample to C8 as stated: `"hello"` matches none of the three
target grammars, yet `parseIPRange` succeeds and returns it as a single-entry
host list instead of failing with an `InvalidFormat` error. -/
theorem parseIPRange_no_invalid_format :
    parseIPRange ("hello".toList) = .ok ["hello".toList] := rfl

/-- C8 (amended): `parseIPRange` performs no format validation.  Every input
without a `/` and without a `-` — whether or not it is a dotted quad — is
returned as a one-element host list holding the trimmed input; no
`InvalidFormat` error exists. -/
theorem parseIPRange_passthrough (s : List Char)
    (h1 : s.contains '/' = false) (h2 : s.contains '-' = false) :
    parseIPRange s = .ok [trimChars s] := by
  simp only [parseIPRange, h1, h2, Bool.false_eq_true, if_false]

/-- Witness for C8's amended statement at a non-IP input. -/
theorem parseIPRange_passthrough_witness :
    parseIPRange ("not an ip".toList) = .ok [trimChars ("not an ip".toList)] :=
  parseIPRange_passthrough ("not an ip".toList) (by decide) (by decide)

end NetworkScan

/-! ## C9: preset/ports dispatch of the scan-ports endpoint -/

namespace PortScan

/-- Counterexample to C9 as stated: with `preset` absent and `ports`
supplied, the handler does not default to the `common` preset — it parses the
custom port string.  (Also, `preset = "custom"` with `ports` absent is not an
error: it silently falls back to `common`.) -/
theorem portsToScan_not_default_common :
    portsToScan none (some ("80".toList)) = [80]
    ∧ portsToScan none (some ("80".toList)) ≠ commonPorts
    ∧ portsToScan (some ("custom".toList)) none = commonPorts := by
  refine ⟨rfl, by decide, rfl⟩

/-- C9 (amended): the scanned port list defaults to `common` only when the
preset is absent or unknown AND no nonempty `ports` string is supplied; an
unknown or absent preset with a nonempty `ports` string parses the custom
spec instead; `"custom"` is not a known preset name, so `preset = "custom"`
follows the same fallback — in particular with no `ports` it yields `common`
rather than an error. -/
theorem portsToScan_dispatch :
    (∀ (p : List Char) (ps : Option (List Char)),
      (p = [] ∨ PORT_PRESETS p = none) →
      portsToScan (some p) ps = portsToScan none ps)
    ∧ (∀ s : List Char, s ≠ [] → portsToScan none (some s) = parsePortRange s)
    ∧ portsToScan none (some []) = commonPorts
    ∧ portsToScan none none = commonPorts
    ∧ portsToScan (some ("custom".toList)) none = commonPorts := by
  refine ⟨?_, ?_, rfl, rfl, rfl⟩
  · intro p ps hp
    rcases hp with hp | hp
    · subst hp
      simp [portsToScan]
    · by_cases he : p = []
      · subst he
        simp [portsToScan]
      · simp [portsToScan, he, hp]
  · intro s hs
    simp [portsToScan, portsToScan.portsFallback, hs]

/-- Witness for C9's amended statement: the unknown preset `"custom"` with a
supplied ports string behaves exactly like an absent preset. -/
theorem portsToScan_dispatch_witness :
    portsToScan (some ("custom".toList)) (some ("80".toList))
      = portsToScan none (some ("80".toList))
    ∧ portsToScan none (some ("80".toList)) = parsePortRange ("80".toList) := by
  refine ⟨?_, ?_⟩
  · exact portsToScan_dispatch.1 ("custom".toList) (some ("80".toList))
      (Or.inr (by decide))
  · exact portsToScan_dispatch.2.1 ("80".toList) (by decide)

end PortScan

/-! ## C2: dash ranges and the signed 32-bit slip -/

namespace NetworkScan

/-- Unsigned 32-bit value of a dotted quad, as specified ("parse dotted-quad
octets into a 32-bit unsigned integer"). -/
def unsignedIpVal (a b c d : Nat) : Nat :=
  ((a * 256 + b) * 256 + c) * 256 + d

/-- C2 as stated fails on the code: the range
`127.255.255.255-128.0.0.1` spans `Nend - Nstart = 2 ≤ 254` unsigned
addresses, so the claim demands `Nend - Nstart + 1 = 3` addresses, but the
handler computes the endpoints as *signed* 32-bit values (`128.0.0.1` is
negative), the loop `for (i = startNum; i <= endNum; ...)` never runs, and
the scan silently returns an empty host list with no `RangeTooLarge` error. -/
theorem parseIPRange_dash_signed_bug :
    parseIPRange ("127.255.255.255-128.0.0.1".toList) = .ok []
    ∧ unsignedIpVal 128 0 0 1 - unsignedIpVal 127 255 255 255 = 2
    ∧ unsignedIpVal 128 0 0 1 - unsignedIpVal 127 255 255 255 + 1 = 3 := by
  refine ⟨rfl, by decide, by decide⟩

end NetworkScan

/-! ## C1: CIDR expansion -/

namespace NetworkScan

open JSem

/-- The unsigned network address of a CIDR block, as specified:
`network = N & ~((1 << hostBits) - 1)` on the unsigned dotted-quad value. -/
def networkAddressOf (a b c d bits : Nat) : Nat :=
  unsignedIpVal a b c d - unsignedIpVal a b c d % 2 ^ (32 - bits)

/-- `pat32` of a small non-negative integer literal is itself. -/
theorem pat32_num_small {n : Nat} (h : n < 4294967296) :
    pat32 (.num (n : Int)) = n := by
  simp only [pat32]
  omega

/-- `pat32` inverts `ofPat` below `2^32`. -/
theorem pat32_ofPat {n : Nat} (h : n < 4294967296) :
    pat32 (.num (ofPat n)) = n := by
  simp only [pat32, ofPat]
  split <;> omega

/-- `a | b` of two reconstructed 32-bit patterns is the pattern `lor`. -/
theorem or32_pats {x y : Nat} (hx : x < 4294967296) (hy : y < 4294967296) :
    or32 (.num (ofPat x)) (.num (ofPat y)) = ofPat (x ||| y) := by
  simp only [or32]
  rw [pat32_ofPat hx, pat32_ofPat hy]

/-- `a & b` of two reconstructed 32-bit patterns is the pattern `land`. -/
theorem and32_pats {x y : Nat} (hx : x < 4294967296) (hy : y < 4294967296) :
    and32 (.num (ofPat x)) (.num (ofPat y)) = ofPat (x &&& y) := by
  simp only [and32]
  rw [pat32_ofPat hx, pat32_ofPat hy]

/-- Disjoint `lor` is addition (low part below the shifted high part). -/
theorem lor_disjoint_add {k x y : Nat} (h : y < 2 ^ k) :
    (2 ^ k * x) ||| y = 2 ^ k * x + y :=
  (Nat.mul_add_lt_is_or h x).symm

/-- Shifting an octet left by a literal count below 32. -/
theorem shl32_oct {x k : Nat} (hx : x < 4294967296) (hk : k < 32)
    (hbound : x * 2 ^ k < 4294967296) :
    shl32 (.num (x : Int)) (.num (k : Int)) = ofPat (x * 2 ^ k) := by
  simp only [shl32]
  rw [pat32_num_small (by omega : x < 4294967296),
      pat32_num_small (by omega : k < 4294967296)]
  rw [Nat.mod_eq_of_lt hk, Nat.shiftLeft_eq, Nat.mod_eq_of_lt hbound]

/-- The signed 32-bit `(o0 << 24) | (o1 << 16) | (o2 << 8) | o3` of in-range
octets carries the unsigned dotted-quad value as its bit pattern. -/
theorem quadToNum_nums {a b c d : Nat} (ha : a < 256) (hb : b < 256)
    (hc : c < 256) (hd : d < 256) :
    quadToNum [.num (a : Int), .num (b : Int), .num (c : Int), .num (d : Int)]
      = ofPat (unsignedIpVal a b c d) := by
  have p24 : (2 : Nat) ^ 24 = 16777216 := by norm_num
  have p16 : (2 : Nat) ^ 16 = 65536 := by norm_num
  have p8 : (2 : Nat) ^ 8 = 256 := by norm_num
  have s0 : shl32 (.num (a : Int)) (.num ((24 : Nat) : Int)) = ofPat (a * 16777216) := by
    rw [shl32_oct (by omega) (by omega) (by rw [p24]; omega), p24]
  have s1 : shl32 (.num (b : Int)) (.num ((16 : Nat) : Int)) = ofPat (b * 65536) := by
    rw [shl32_oct (by omega) (by omega) (by rw [p16]; omega), p16]
  have s2 : shl32 (.num (c : Int)) (.num ((8 : Nat) : Int)) = ofPat (c * 256) := by
    rw [shl32_oct (by omega) (by omega) (by rw [p8]; omega), p8]
  have e1 : (a * 16777216) ||| (b * 65536) = a * 16777216 + b * 65536 := by
    have h := lor_disjoint_add (k := 24) (x := a) (y := b * 65536)
      (by rw [p24]; omega)
    rw [p24, Nat.mul_comm 16777216 a] at h
    exact h
  have e2 : (a * 16777216 + b * 65536) ||| (c * 256)
      = a * 16777216 + b * 65536 + c * 256 := by
    have h := lor_disjoint_add (k := 16) (x := a * 256 + b) (y := c * 256)
      (by rw [p16]; omega)
    rw [p16] at h
    have hr : 65536 * (a * 256 + b) = a * 16777216 + b * 65536 := by ring
    rw [hr] at h
    exact h
  have e3 : (a * 16777216 + b * 65536 + c * 256) ||| d
      = a * 16777216 + b * 65536 + c * 256 + d := by
    have h := lor_disjoint_add (k := 8) (x := (a * 256 + b) * 256 + c) (y := d)
      (by rw [p8]; omega)
    rw [p8] at h
    have hr : 256 * ((a * 256 + b) * 256 + c) = a * 16777216 + b * 65536 + c * 256 := by
      ring
    rw [hr] at h
    exact h
  show or32 (.num (or32 (.num (or32 (.num (shl32 (.num (a : Int)) (.num 24)))
      (.num (shl32 (.num (b : Int)) (.num 16)))))
      (.num (shl32 (.num (c : Int)) (.num 8)))))
      (.num (d : Int)) = ofPat (unsignedIpVal a b c d)
  rw [show (((24 : Nat) : Int)) = (24 : Int) by norm_num] at s0
  rw [show (((16 : Nat) : Int)) = (16 : Int) by norm_num] at s1
  rw [show (((8 : Nat) : Int)) = (8 : Int) by norm_num] at s2
  rw [s0, s1, s2]
  rw [or32_pats (by omega) (by omega), e1]
  rw [or32_pats (by omega) (by omega), e2]
  have hlast : or32 (.num (ofPat (a * 16777216 + b * 65536 + c * 256)))
      (.num (d : Int)) = ofPat ((a * 16777216 + b * 65536 + c * 256) ||| d) := by
    simp only [or32]
    rw [pat32_ofPat (by omega), pat32_num_small (by omega)]
  rw [hlast, e3]
  have hval : a * 16777216 + b * 65536 + c * 256 + d = unsignedIpVal a b c d := by
    unfold unsignedIpVal
    ring
  rw [hval]

/-- Clearing the low `h` bits with the high mask `2^32 - 2^h`. -/
theorem land_highmask {p h : Nat} (hp : p < 4294967296) (hh : h ≤ 32) :
    p &&& (4294967296 - 2 ^ h) = p - p % 2 ^ h := by
  have hlow : p - p % 2 ^ h = 2 ^ h * (p / 2 ^ h) := by
    have h0 := Nat.div_add_mod p (2 ^ h)
    omega
  have hsplit : (2 : Nat) ^ h * 2 ^ (32 - h) = 4294967296 := by
    rw [← pow_add]
    have : h + (32 - h) = 32 := by omega
    rw [this]
    norm_num
  have hmask : 4294967296 - 2 ^ h = 2 ^ h * (2 ^ (32 - h) - 1) := by
    rw [Nat.mul_sub_left_distrib, hsplit, Nat.mul_one]
  rw [hmask, hlow]
  apply Nat.eq_of_testBit_eq
  intro j
  rw [Nat.testBit_and, Nat.testBit_mul_pow_two, Nat.testBit_mul_pow_two]
  by_cases hj : h ≤ j
  · simp only [ge_iff_le, hj, decide_eq_true_eq, decide_True, Bool.true_and]
    rw [Nat.testBit_two_pow_sub_one]
    have hdiv : p / 2 ^ h = p >>> h := (Nat.shiftRight_eq_div_pow p h).symm
    rw [hdiv, Nat.testBit_shiftRight]
    have hidx : h + (j - h) = j := by omega
    rw [hidx]
    by_cases hj32 : j < 32
    · have hlt : j - h < 32 - h := by omega
      simp [hlt]
    · have hnlt : ¬ (j - h < 32 - h) := by omega
      have hbit : p.testBit j = false := by
        apply Nat.testBit_lt_two_pow
        calc p < 4294967296 := hp
          _ = 2 ^ 32 := by norm_num
          _ ≤ 2 ^ j := Nat.pow_le_pow_right (by norm_num) (by omega)
      simp [hnlt, hbit]
  · have hd : decide (j ≥ h) = false := by
      simp only [ge_iff_le, decide_eq_false_iff_not]
      exact hj
    rw [hd]
    simp

/-- The pattern of `~0 << hostBits` for host-bit counts up to 8. -/
theorem mask_value {h : Nat} (hh : h ≤ 8) :
    shl32 (.num (not32 (.num 0))) (.num ((h : Nat) : Int))
      = ofPat (4294967296 - 2 ^ h) := by
  have hnot : not32 (.num 0) = ofPat 4294967295 := by
    simp only [not32]
    rw [show pat32 (.num 0) = 0 from rfl]
  simp only [shl32, hnot]
  rw [pat32_ofPat (by omega), pat32_num_small (show h < 4294967296 by omega)]
  have hmod : h % 32 = h := Nat.mod_eq_of_lt (by omega)
  rw [hmod, Nat.shiftLeft_eq]
  have h2 : (2 : Nat) ^ h ≤ 256 :=
    calc (2 : Nat) ^ h ≤ 2 ^ 8 := Nat.pow_le_pow_right (by norm_num) hh
      _ = 256 := by norm_num
  have h1 : 1 ≤ (2 : Nat) ^ h := Nat.one_le_two_pow
  congr 1
  omega

/-- `emitIp` depends only on the 32-bit pattern of its argument. -/
theorem emitIp_congr {x y : Int} (h : x % 4294967296 = y % 4294967296) :
    emitIp x = emitIp y := by
  simp only [emitIp, ushr32, and32, pat32, h]

/-- Evaluation of the CIDR branch on in-range parsed octets and bits:
the emitted list is exactly the dotted quads of `network+1 … network+2^h-2`
for the unsigned network address. -/
theorem cidrExpand_eval {a b c d v : Nat} (ha : a < 256) (hb : b < 256)
    (hc : c < 256) (hd : d < 256) (hv1 : 24 ≤ v) (hv2 : v ≤ 32) :
    cidrExpand (.num (v : Int))
        [.num (a : Int), .num (b : Int), .num (c : Int), .num (d : Int)]
      = (List.range' (networkAddressOf a b c d v + 1) (2 ^ (32 - v) - 2)).map
          (fun n : Nat => emitIp (n : Int)) := by
  have hN : unsignedIpVal a b c d < 4294967296 := by
    unfold unsignedIpVal
    omega
  have hh8 : 32 - v ≤ 8 := by omega
  have hpow_pos : 1 ≤ (2 : Nat) ^ (32 - v) := Nat.one_le_two_pow
  simp only [cidrExpand]
  rw [quadToNum_nums ha hb hc hd]
  have hsub : jsSub (.num 32) (.num (v : Int)) = .num (((32 - v : Nat) : Int)) := by
    simp only [jsSub]
    congr 1
    omega
  rw [hsub]
  have hpow : jsPow2 (.num ((32 - v : Nat) : Int))
      = .num (((2 ^ (32 - v) : Nat) : Int)) := by
    simp only [jsPow2]
    rw [if_pos (by omega : (0 : Int) ≤ ((32 - v : Nat) : Int))]
    congr 1
    have ht : (((32 - v : Nat) : Int)).toNat = 32 - v := by omega
    rw [ht]
    push_cast
    ring
  rw [hpow, mask_value hh8, and32_pats hN (by omega), land_highmask hN (by omega)]
  have hcount : ∀ K : Nat, (match jsSub (.num (K : Int)) (.num 1) with
      | JSNum.nan => 0
      | JSNum.num b => (b - 1).toNat) = K - 2 := by
    intro K
    simp only [jsSub]
    show ((K : Int) - 1 - 1).toNat = K - 2
    omega
  rw [hcount (2 ^ (32 - v))]
  have hcong : ∀ i ∈ List.range' 1 (2 ^ (32 - v) - 2),
      emitIp (ofPat (unsignedIpVal a b c d - unsignedIpVal a b c d % 2 ^ (32 - v))
          + (i : Int))
        = emitIp (((unsignedIpVal a b c d - unsignedIpVal a b c d % 2 ^ (32 - v) + i
            : Nat) : Int)) := by
    intro i _
    apply emitIp_congr
    generalize unsignedIpVal a b c d - unsignedIpVal a b c d % 2 ^ (32 - v) = M
    simp only [ofPat]
    split <;> omega
  rw [List.map_congr_left hcong]
  have hnet : networkAddressOf a b c d v
      = unsignedIpVal a b c d - unsignedIpVal a b c d % 2 ^ (32 - v) := rfl
  rw [hnet, ← List.map_add_range', List.map_map]
  rfl

/-- Case split for membership in a dotted-quad character list. -/
theorem mem_quad_cases {d1 d2 d3 d4 : List Char} {ch : Char}
    (hm : ch ∈ d1 ++ ('.' :: d2) ++ ('.' :: d3) ++ ('.' :: d4)) :
    ch ∈ d1 ∨ ch ∈ d2 ∨ ch ∈ d3 ∨ ch ∈ d4 ∨ ch = '.' := by
  simp only [List.mem_append, List.mem_cons] at hm
  tauto

/-- C1: for every CIDR target spec `a.b.c.d/bits` (in-range octets, bits in
`[24,32]`), `parseIPRange` succeeds with exactly `2^(32-bits) - 2` addresses
(natural-number truncation at `/31` and `/32`, where the code emits none),
strictly ascending, rendering precisely the values strictly between the
unsigned network address and the broadcast address `network + 2^(32-bits)-1`
— the hosts of the network with network and broadcast excluded. -/
theorem parseIPRange_cidr (d1 d2 d3 d4 db : List Char)
    (h1 : d1 ≠ []) (h1d : d1.all Char.isDigit = true)
    (h2 : d2 ≠ []) (h2d : d2.all Char.isDigit = true)
    (h3 : d3 ≠ []) (h3d : d3.all Char.isDigit = true)
    (h4 : d4 ≠ []) (h4d : d4.all Char.isDigit = true)
    (h5 : db ≠ []) (h5d : db.all Char.isDigit = true)
    (o1 : digitsVal d1 < 256) (o2 : digitsVal d2 < 256)
    (o3 : digitsVal d3 < 256) (o4 : digitsVal d4 < 256)
    (hlo : 24 ≤ digitsVal db) (hhi : digitsVal db ≤ 32) :
    ∃ hosts : List Nat,
      parseIPRange ((d1 ++ ('.' :: d2) ++ ('.' :: d3) ++ ('.' :: d4)) ++ ('/' :: db))
        = .ok (hosts.map (fun n : Nat => emitIp (n : Int)))
      ∧ hosts.length = 2 ^ (32 - digitsVal db) - 2
      ∧ hosts.Pairwise (· < ·)
      ∧ (∀ x : Nat, x ∈ hosts ↔
          networkAddressOf (digitsVal d1) (digitsVal d2) (digitsVal d3)
            (digitsVal d4) (digitsVal db) < x
          ∧ x < networkAddressOf (digitsVal d1) (digitsVal d2) (digitsVal d3)
              (digitsVal d4) (digitsVal db) + (2 ^ (32 - digitsVal db) - 1)) := by
  have hd1 := List.all_eq_true.mp h1d
  have hd2 := List.all_eq_true.mp h2d
  have hd3 := List.all_eq_true.mp h3d
  have hd4 := List.all_eq_true.mp h4d
  have hdb := List.all_eq_true.mp h5d
  have hqslash : ∀ ch ∈ d1 ++ ('.' :: d2) ++ ('.' :: d3) ++ ('.' :: d4), ch ≠ '/' := by
    intro ch hm
    rcases mem_quad_cases hm with hc | hc | hc | hc | hc
    · exact digit_ne (hd1 ch hc) (by decide)
    · exact digit_ne (hd2 ch hc) (by decide)
    · exact digit_ne (hd3 ch hc) (by decide)
    · exact digit_ne (hd4 ch hc) (by decide)
    · subst hc; decide
  have hdbslash : ∀ ch ∈ db, ch ≠ '/' :=
    fun ch hm => digit_ne (hdb ch hm) (by decide)
  have hcontains :
      ((d1 ++ ('.' :: d2) ++ ('.' :: d3) ++ ('.' :: d4)) ++ ('/' :: db)).contains '/'
        = true :=
    contains_of_mem (by simp)
  have hsplit :
      splitOnCh '/' ((d1 ++ ('.' :: d2) ++ ('.' :: d3) ++ ('.' :: d4)) ++ ('/' :: db))
        = [d1 ++ ('.' :: d2) ++ ('.' :: d3) ++ ('.' :: d4), db] := by
    rw [splitOnCh_append_cons _ db hqslash, splitOnCh_of_not_mem hdbslash]
  have hbits : jsParseInt db = .num ((digitsVal db : Nat) : Int) :=
    jsParseInt_digits h5 h5d
  have hguard :
      (jsLt (.num ((digitsVal db : Nat) : Int)) (.num 24)
        || jsGt (.num ((digitsVal db : Nat) : Int)) (.num 32)) = false := by
    simp only [jsLt, jsGt, Bool.or_eq_false_iff, decide_eq_false_iff_not]
    constructor <;> omega
  have hquadsplit :
      splitOnCh '.' (d1 ++ ('.' :: d2) ++ ('.' :: d3) ++ ('.' :: d4))
        = [d1, d2, d3, d4] := by
    have hq2 : d1 ++ ('.' :: d2) ++ ('.' :: d3) ++ ('.' :: d4)
        = d1 ++ ('.' :: (d2 ++ ('.' :: (d3 ++ ('.' :: d4))))) := by
      simp [List.cons_append, List.append_assoc]
    rw [hq2]
    rw [splitOnCh_append_cons d1 _ (fun ch hm => digit_ne (hd1 ch hm) (by decide))]
    rw [splitOnCh_append_cons d2 _ (fun ch hm => digit_ne (hd2 ch hm) (by decide))]
    rw [splitOnCh_append_cons d3 _ (fun ch hm => digit_ne (hd3 ch hm) (by decide))]
    rw [splitOnCh_of_not_mem (fun ch hm => digit_ne (hd4 ch hm) (by decide))]
  refine ⟨List.range'
      (networkAddressOf (digitsVal d1) (digitsVal d2) (digitsVal d3)
        (digitsVal d4) (digitsVal db) + 1)
      (2 ^ (32 - digitsVal db) - 2), ?_, ?_, ?_, ?_⟩
  · simp only [parseIPRange]
    rw [if_pos hcontains, hsplit]
    rw [show ([d1 ++ ('.' :: d2) ++ ('.' :: d3) ++ ('.' :: d4), db]).getD 0 []
        = d1 ++ ('.' :: d2) ++ ('.' :: d3) ++ ('.' :: d4) from rfl]
    rw [show ([d1 ++ ('.' :: d2) ++ ('.' :: d3) ++ ('.' :: d4), db]).getD 1 []
        = db from rfl]
    rw [hbits, hguard]
    simp only [Bool.false_eq_true, if_false]
    rw [hquadsplit]
    simp only [List.map_cons, List.map_nil]
    rw [jsNumberOf_digits h1 h1d, jsNumberOf_digits h2 h2d,
        jsNumberOf_digits h3 h3d, jsNumberOf_digits h4 h4d]
    rw [cidrExpand_eval o1 o2 o3 o4 hlo hhi]
  · simp [List.length_range']
  · exact List.pairwise_lt_range' _ _
  · intro x
    rw [List.mem_range'_1]
    have hp : 1 ≤ (2 : Nat) ^ (32 - digitsVal db) := Nat.one_le_two_pow
    omega

/-- Witness for C1 at the spec's example `192.168.1.0/24`: 254 hosts of the
network `192.168.1.0` (value 3232235776), excluding network and broadcast. -/
theorem parseIPRange_cidr_witness :
    (∃ hosts : List Nat,
      parseIPRange (("192".toList ++ ('.' :: "168".toList) ++ ('.' :: "1".toList)
          ++ ('.' :: "0".toList)) ++ ('/' :: "24".toList))
        = .ok (hosts.map (fun n : Nat => emitIp (n : Int)))
      ∧ hosts.length = 2 ^ (32 - digitsVal "24".toList) - 2
      ∧ hosts.Pairwise (· < ·)
      ∧ (∀ x : Nat, x ∈ hosts ↔
          networkAddressOf (digitsVal "192".toList) (digitsVal "168".toList)
            (digitsVal "1".toList) (digitsVal "0".toList) (digitsVal "24".toList) < x
          ∧ x < networkAddressOf (digitsVal "192".toList) (digitsVal "168".toList)
              (digitsVal "1".toList) (digitsVal "0".toList) (digitsVal "24".toList)
              + (2 ^ (32 - digitsVal "24".toList) - 1)))
    ∧ networkAddressOf 192 168 1 0 24 = 3232235776
    ∧ (2 : Nat) ^ (32 - 24) - 2 = 254 :=
  ⟨parseIPRange_cidr "192".toList "168".toList "1".toList "0".toList "24".toList
    (by decide) (by decide) (by decide) (by decide) (by decide) (by decide)
    (by decide) (by decide) (by decide) (by decide) (by decide) (by decide)
    (by decide) (by decide) (by decide) (by decide),
   by decide, by decide⟩

end NetworkScan
